import Mathlib

/-!
Shallow embedding of the resilient paginated ingestion pipeline of
`fetch_market_metadata.py` and the enrichment functions of
`fetch_polymarket_data.py`, together with theorems settling the spec
claims about pagination termination, partial-failure persistence,
classification, retry/backoff, output-file overwrite semantics,
enrichment degradation and the accepted-records/identifier-list
invariant.
-/

namespace PyClob

/-- A raw item of a provider page.  `malformed` models a JSON value that is
not a key-value mapping (calling `.get` on it raises `AttributeError` in the
Python source); `record` models a mapping, each field being `none` when the
key is absent (`market.get(k)` returns `None`). -/
inductive RawItem where
  | malformed
  | record (slug condition_id question description status : Option String)
      (tags : Option (List String))
deriving DecidableEq, Repr

/-- Python truthiness of an optional string field: `None` and `""` are falsy. -/
def truthy : Option String → Bool
  | none => false
  | some s => !(s == "")

/-- The metadata projection built at lines 131-138 of
`fetch_market_metadata.py`: `market.get("question", "")` etc. -/
structure MetadataV where
  question : String
  description : String
  status : String
  tags : List String
deriving DecidableEq, Repr

/-- Projection of a record's fields with the source's field-level defaults. -/
def extractMetadata (q d st : Option String) (tg : Option (List String)) : MetadataV :=
  ⟨q.getD "", d.getD "", st.getD "", tg.getD []⟩

/-- The parsed response envelope: `data.get("data", [])` and
`data.get("next_cursor", end_cursor)`; each field is `none` when absent. -/
structure Envelope where
  data : Option (List RawItem)
  next_cursor : Option String
deriving DecidableEq, Repr

/-- Outcome of one `requests.get` call inside the retry loop
(lines 73-98 of `fetch_market_metadata.py`). -/
inductive Attempt where
  | rateLimited (retryAfter : Option Nat)
  | requestError
  | success (body : Option Envelope)
deriving DecidableEq, Repr

/-- Outcome of the whole retry loop for one page: truthy parsed data,
falsy/absent data (the outer `if not data: break`), or a propagated
exception. -/
inductive ReqOutcome where
  | gotData (env : Envelope)
  | noData
  | raised
deriving DecidableEq, Repr

/-- Result of executing one page request: the outcome, the sequence of
`time.sleep` durations performed, and the number of HTTP requests issued. -/
structure ExecResult where
  outcome : ReqOutcome
  sleeps : List Nat
  requests : Nat
deriving DecidableEq, Repr

/-- `max_retries = 3` at line 69. -/
def max_retries : Nat := 3

/-- `retry_delay = 2` at line 70, reset for every page. -/
def base_delay : Nat := 2

/-- The retry loop `for retry in range(max_retries)` of lines 73-98.
`fuel` is the number of remaining loop iterations, `idx` indexes the
provider's response to each attempt, `delay` is the current `retry_delay`.
A 429 sleeps `Retry-After` (or the current delay when the header is absent)
and continues without touching `retry_delay`; a `RequestException` sleeps
the current delay and doubles it, except on the last iteration where it
re-raises; a 2xx parse breaks with the body. -/
def attemptLoop : Nat → (Nat → Attempt) → Nat → Nat → ExecResult
  | 0, _, _, _ => ⟨.noData, [], 0⟩
  | fuel + 1, resp, idx, delay =>
    match resp idx with
    | .rateLimited ra =>
      let w := ra.getD delay
      let r := attemptLoop fuel resp (idx + 1) delay
      ⟨r.outcome, w :: r.sleeps, r.requests + 1⟩
    | .requestError =>
      if fuel = 0 then ⟨.raised, [], 1⟩
      else
        let r := attemptLoop fuel resp (idx + 1) (delay * 2)
        ⟨r.outcome, delay :: r.sleeps, r.requests + 1⟩
    | .success body =>
      match body with
      | some env => ⟨.gotData env, [], 1⟩
      | none => ⟨.noData, [], 1⟩

/-- One full request with retries, as performed for one page. -/
def executeRequest (resp : Nat → Attempt) : ExecResult :=
  attemptLoop max_retries resp 0 base_delay

/-- The entry stored in `skipped_markets[market_slug]` at lines 124-127:
a constant reason string together with the raw item. -/
structure SkippedEntry where
  reason : String
  market_data : RawItem
deriving DecidableEq, Repr

/-- State of the pagination `while` loop: the accepted-records dict, the
identifier list, the skipped dict, the accepted counter and the cursor. -/
structure LoopState where
  markets_data : List (String × MetadataV)
  market_slugs : List String
  skipped_markets : List (String × SkippedEntry)
  count : Nat
  next_cursor : String
deriving DecidableEq, Repr

/-- Initial loop state (lines 56-61): cursor `"MA=="`, empty containers. -/
def initState : LoopState := ⟨[], [], [], 0, "MA=="⟩

/-- The terminal cursor `end_cursor = "MA"` (line 57). -/
def end_cursor : String := "MA"

/-- Python dict assignment `d[k] = v`: overwrite in place when the key is
present, append otherwise. -/
def dictInsert {α : Type} (l : List (String × α)) (k : String) (v : α) :
    List (String × α) :=
  if l.any (fun p => p.1 == k) then
    l.map (fun p => if p.1 == k then (k, v) else p)
  else l ++ [(k, v)]

/-- Result of the `for market in current_markets` loop: it either finishes
(possibly via the `count >= limit` break) or raises mid-page when an item is
not a mapping. -/
inductive ForResult where
  | done (s : LoopState)
  | raisedAt (s : LoopState)
deriving DecidableEq, Repr

/-- The state carried by a `ForResult`. -/
def forState : ForResult → LoopState
  | .done s => s
  | .raisedAt s => s

/-- The per-item loop of lines 108-146.  The limit break is checked at the
top of each iteration; an item with a falsy slug is skipped silently; a
truthy slug with a falsy `condition_id` goes to `skipped_markets` with
reason `"Missing condition_id"`; otherwise the item is accepted: its
metadata projection is stored under the slug, the slug is appended to
`market_slugs` and `count` is incremented.  A `malformed` item raises at
`market.get("slug")`. -/
def processItems (limit : Nat) : LoopState → List RawItem → ForResult
  | s, [] => .done s
  | s, item :: rest =>
    if limit ≤ s.count then .done s
    else
      match item with
      | .malformed => .raisedAt s
      | .record slug cid q d st tg =>
        if truthy slug = false then processItems limit s rest
        else
          let slugStr := slug.getD ""
          if truthy cid = false then
            processItems limit
              { s with skipped_markets :=
                  dictInsert s.skipped_markets slugStr ⟨"Missing condition_id", item⟩ }
              rest
          else
            processItems limit
              { s with
                markets_data := dictInsert s.markets_data slugStr (extractMetadata q d st tg),
                market_slugs := s.market_slugs ++ [slugStr],
                count := s.count + 1 }
              rest

/-- Result of the pagination `while` loop: normal exit (guard false or the
`if not data: break`), an exception reaching the outer handler, or fuel
exhaustion — the latter meaning the loop was still running after `fuel`
iterations. -/
inductive RunResult where
  | completed (s : LoopState)
  | excepted (s : LoopState)
  | outOfFuel (s : LoopState)
deriving DecidableEq, Repr

/-- The state carried by any `RunResult`. -/
def stateOf : RunResult → LoopState
  | .completed s => s
  | .excepted s => s
  | .outOfFuel s => s

/-- The `while next_cursor != end_cursor and count < limit` loop of
lines 65-146.  `attempts i j` is the provider's response to the `j`-th HTTP
attempt of the `i`-th loop iteration; `fuel` bounds the number of
iterations we unfold (the Python loop has no such bound).  When the page
request raises, or an item raises, the exception reaches the `except`
handler at line 156 with the state accumulated so far. -/
def runLoop (limit : Nat) (attempts : Nat → Nat → Attempt) :
    Nat → Nat → LoopState → RunResult
  | 0, _, s => .outOfFuel s
  | fuel + 1, i, s =>
    if s.next_cursor = end_cursor ∨ limit ≤ s.count then .completed s
    else
      match (executeRequest (attempts i)).outcome with
      | .raised => .excepted s
      | .noData => .completed s
      | .gotData env =>
        let s1 := { s with next_cursor := env.next_cursor.getD end_cursor }
        match processItems limit s1 (env.data.getD []) with
        | .done s2 => runLoop limit attempts fuel (i + 1) s2
        | .raisedAt s2 => .excepted s2

/-- The three output files; `none` means the file does not exist (or, for a
pre-existing file, we record its previous contents in `some`). -/
structure FileState where
  metadata_file : Option (List (String × MetadataV))
  slugs_file : Option (List String)
  skipped_file : Option (List (String × String))
deriving DecidableEq, Repr

/-- A file state where none of the three outputs exists yet. -/
def emptyFS : FileState := ⟨none, none, none⟩

/-- `save_results` (lines 164-213): each of the three files is written only
when the corresponding container is truthy (non-empty); otherwise the prior
file is left untouched.  The skipped dict is formatted down to
`{slug: {"reason": …}}`. -/
def save_results (md : List (String × MetadataV)) (slugs : List String)
    (skipped : List (String × SkippedEntry)) (fs : FileState) : FileState :=
  { metadata_file := if md.isEmpty then fs.metadata_file else some md
    slugs_file := if slugs.isEmpty then fs.slugs_file else some slugs
    skipped_file := if skipped.isEmpty then fs.skipped_file
      else some (skipped.map fun p => (p.1, p.2.reason)) }

/-- Result of a whole `fetch_market_metadata` run: a normal return with the
accepted dict, the final file state and the number of `save_results`
invocations; an exception propagated to the caller (after the handler's
conditional flush); or divergence — the loop still running when the fuel
ran out. -/
inductive FetchResult where
  | ok (markets : List (String × MetadataV)) (fs : FileState) (flushes : Nat)
  | error (fs : FileState) (flushes : Nat)
  | diverged (s : LoopState)
deriving DecidableEq, Repr

/-- The guard of line 159: `if markets_data or market_slugs or skipped_markets`. -/
def nonEmptyState (s : LoopState) : Bool :=
  !(s.markets_data.isEmpty && s.market_slugs.isEmpty && s.skipped_markets.isEmpty)

/-- `fetch_market_metadata` (lines 20-162) over an abstract provider:
on normal loop exit `save_results` runs unconditionally (line 152) and the
accepted dict is returned; on an exception, partial results are flushed
when any container is non-empty (lines 159-161) and the exception is
re-raised (line 162). -/
def fetch_market_metadata (limit : Nat) (attempts : Nat → Nat → Attempt)
    (fuel : Nat) (fs : FileState) : FetchResult :=
  match runLoop limit attempts fuel 0 initState with
  | .completed s =>
    .ok s.markets_data (save_results s.markets_data s.market_slugs s.skipped_markets fs) 1
  | .excepted s =>
    if nonEmptyState s then
      .error (save_results s.markets_data s.market_slugs s.skipped_markets fs) 1
    else .error fs 0
  | .outOfFuel s => .diverged s

/-- The final file state of a run, when the run terminated. -/
def finalFS : FetchResult → Option FileState
  | .ok _ fs _ => some fs
  | .error fs _ => some fs
  | .diverged _ => none

/-- How many times `save_results` was invoked. -/
def flushCount : FetchResult → Nat
  | .ok _ _ n => n
  | .error _ n => n
  | .diverged _ => 0

/-- Whether the run raised an error to the caller. -/
def isError : FetchResult → Bool
  | .error _ _ => true
  | _ => false

/-- Whether the run exhausted its fuel with the loop still going. -/
def isDiverged : FetchResult → Bool
  | .diverged _ => true
  | _ => false

/-- A raw history entry returned by the detail endpoints of
`fetch_polymarket_data.py`: an untyped key-value record. -/
abbrev RawEntry : Type := List (String × String)

/-- A formatted price-history point (lines 115-119 of
`fetch_polymarket_data.py`). -/
structure PriceEntry where
  timestamp : Option String
  price : Option String
  liquidity : Option String
deriving DecidableEq, Repr

/-- A formatted trade-history point (lines 167-172 of
`fetch_polymarket_data.py`). -/
structure TradeEntry where
  timestamp : Option String
  trader : Option String
  amount : Option String
  price : Option String
deriving DecidableEq, Repr

/-- Outcome of one detail-lookup attempt: an exception, or a parsed body
(`none` models a falsy parsed JSON). -/
inductive LookupAttempt where
  | fail
  | ok (body : Option (List RawEntry))
deriving DecidableEq

/-- `formatted_entry` for price history. -/
def formatPriceEntry (e : RawEntry) : PriceEntry :=
  ⟨List.lookup "timestamp" e, List.lookup "price" e, List.lookup "liquidity" e⟩

/-- `formatted_entry` for trade history. -/
def formatTradeEntry (e : RawEntry) : TradeEntry :=
  ⟨List.lookup "timestamp" e, List.lookup "trader" e,
    List.lookup "amount" e, List.lookup "price" e⟩

/-- The retry loop of `fetch_price_history` (lines 89-130): up to 3
attempts, a constant 2-second wait between them; a falsy body returns `[]`;
exhausting the attempts returns `[]` instead of raising. -/
def priceLoop : Nat → (Nat → LookupAttempt) → Nat → List PriceEntry
  | 0, _, _ => []
  | fuel + 1, att, idx =>
    match att idx with
    | .ok body =>
      match body with
      | none => []
      | some entries => entries.map formatPriceEntry
    | .fail => if fuel = 0 then [] else priceLoop fuel att (idx + 1)

/-- `fetch_price_history` over an abstract sequence of attempt outcomes. -/
def fetch_price_history (att : Nat → LookupAttempt) : List PriceEntry :=
  priceLoop max_retries att 0

/-- The retry loop of `fetch_trade_history` (lines 146-183), same shape. -/
def tradeLoop : Nat → (Nat → LookupAttempt) → Nat → List TradeEntry
  | 0, _, _ => []
  | fuel + 1, att, idx =>
    match att idx with
    | .ok body =>
      match body with
      | none => []
      | some entries => entries.map formatTradeEntry
    | .fail => if fuel = 0 then [] else tradeLoop fuel att (idx + 1)

/-- `fetch_trade_history` over an abstract sequence of attempt outcomes. -/
def fetch_trade_history (att : Nat → LookupAttempt) : List TradeEntry :=
  tradeLoop max_retries att 0

/-- A value stored in a market record of `fetch_market_data`: either an
opaque provider scalar or one of the enrichment lists the function adds. -/
inductive MVal where
  | str (s : String)
  | priceHist (l : List PriceEntry)
  | tradeHist (l : List TradeEntry)
deriving DecidableEq

/-- A market record as handled by `fetch_market_data`: a key-value dict. -/
abbrev MarketDict : Type := List (String × MVal)

/-- Python truthiness of `market.get("fpmm_contract_address")`. -/
def truthyVal : Option MVal → Bool
  | none => false
  | some (.str s) => !(s == "")
  | some (.priceHist l) => !l.isEmpty
  | some (.tradeHist l) => !l.isEmpty

/-- The string content of a market-hash value (the source only ever
receives strings in this field). -/
def hashString : Option MVal → String
  | some (.str s) => s
  | _ => ""

/-- The body of the `for market in markets` loop of `fetch_market_data`
(lines 205-224 of `fetch_polymarket_data.py`): a market lacking a truthy
`fpmm_contract_address` is appended unchanged; otherwise the price and
trade histories are looked up by the hash and the market's copy is
extended with a `price_history` and a `trade_history` key. -/
def enrichMarket (priceAtt tradeAtt : String → Nat → LookupAttempt)
    (market : MarketDict) : MarketDict :=
  let hv := List.lookup "fpmm_contract_address" market
  if truthyVal hv = false then market
  else
    let h := hashString hv
    let ph := fetch_price_history (priceAtt h)
    let th := fetch_trade_history (tradeAtt h)
    dictInsert (dictInsert market "price_history" (.priceHist ph))
      "trade_history" (.tradeHist th)

/-- `fetch_market_data` (lines 185-229 of `fetch_polymarket_data.py`).
`priceAtt h` and `tradeAtt h` give the provider's responses to the
successive lookup attempts for hash `h`. -/
def fetch_market_data (markets : List MarketDict)
    (priceAtt tradeAtt : String → Nat → LookupAttempt) : List MarketDict :=
  markets.map (enrichMarket priceAtt tradeAtt)

/-! Concrete provider behaviours used to instantiate the theorems. -/

/-- An ordinary accepted item: slug `"s1"`, condition id `"c1"`,
question `"q1"`, all optional fields absent. -/
def okItem : RawItem :=
  .record (some "s1") (some "c1") (some "q1") none none none

/-- Its metadata projection. -/
def okMeta : MetadataV := ⟨"q1", "", "", []⟩

/-- An item that has a condition id but no slug. -/
def noSlugItem : RawItem := .record none (some "c1") none none none none

/-- A provider that answers every request of every page with a 200 whose
page holds one slug-less item and whose cursor is stuck at `"AB=="`. -/
def c1Attempts : Nat → Nat → Attempt := fun _ _ =>
  .success (some ⟨some [noSlugItem], some "AB=="⟩)

/-- Page 1 succeeds with an empty item list and a non-terminal cursor;
every later page fails on all three attempts. -/
def c2ceAttempts : Nat → Nat → Attempt := fun i _ =>
  if i = 0 then .success (some ⟨some [], some "AB=="⟩) else .requestError

/-- Page 1 succeeds with one accepted item and a non-terminal cursor;
every later page fails on all three attempts. -/
def c2wAttempts : Nat → Nat → Attempt := fun i _ =>
  if i = 0 then .success (some ⟨some [okItem], some "AB=="⟩) else .requestError

/-- Same provider shape for the C3 counterexample. -/
def c3ceAttempts : Nat → Nat → Attempt := fun i _ =>
  if i = 0 then .success (some ⟨some [okItem], some "AB=="⟩) else .requestError

/-- Same provider shape for the C3 witness. -/
def c3wAttempts : Nat → Nat → Attempt := fun i _ =>
  if i = 0 then .success (some ⟨some [okItem], some "AB=="⟩) else .requestError

/-- A single page holding one slug-less item with a condition id, followed
by the terminal cursor. -/
def c4Attempts : Nat → Nat → Attempt := fun _ _ =>
  .success (some ⟨some [noSlugItem], some "MA"⟩)

/-- A provider answering every request with the one-item page `[item]` and
the terminal cursor. -/
def onePageAttempts (item : RawItem) : Nat → Nat → Attempt := fun _ _ =>
  .success (some ⟨some [item], some "MA"⟩)

/-- A single page holding one malformed (non-mapping) item. -/
def c5Attempts : Nat → Nat → Attempt := fun _ _ =>
  .success (some ⟨some [RawItem.malformed], some "AB=="⟩)

/-- A single page holding the same item twice, then the terminal cursor. -/
def c6Attempts : Nat → Nat → Attempt := fun _ _ =>
  .success (some ⟨some [okItem, okItem], some "MA"⟩)

/-- A single page holding one accepted item, then the terminal cursor. -/
def c6wAttempts : Nat → Nat → Attempt := fun _ _ =>
  .success (some ⟨some [okItem], some "MA"⟩)

/-- A single page holding one accepted item, then the terminal cursor. -/
def c8Attempts : Nat → Nat → Attempt := fun _ _ =>
  .success (some ⟨some [okItem], some "MA"⟩)

/-- Output files left behind by a previous run. -/
def staleFS : FileState :=
  ⟨some [("old", ⟨"oq", "", "", []⟩)], some ["old"],
    some [("oldskip", "Missing condition_id")]⟩

/-- A single page holding one accepted item, then the terminal cursor. -/
def c8wAttempts : Nat → Nat → Attempt := fun _ _ =>
  .success (some ⟨some [okItem], some "MA"⟩)

/-- A single page holding one accepted item, then the terminal cursor. -/
def c10Attempts : Nat → Nat → Attempt := fun _ _ =>
  .success (some ⟨some [okItem], some "MA"⟩)

/-- One market with a hash and one ordinary field. -/
def c9Market : MarketDict :=
  [("fpmm_contract_address", .str "h1"), ("question", .str "q")]

/-- Detail lookups that fail on every attempt for every hash. -/
def failingLookup : String → Nat → LookupAttempt := fun _ _ => .fail

/-! Helper lemmas. -/

/-- A truthy optional string yields a non-empty string under `getD ""`. -/
theorem truthy_getD_ne {o : Option String} (h : truthy o = true) :
    o.getD "" ≠ "" := by
  cases o with
  | none => simp [truthy] at h
  | some s =>
    simp only [truthy, Bool.not_eq_true'] at h
    simpa using beq_eq_false_iff_ne.mp h

/-- The retry loop issues at most one request per remaining iteration. -/
theorem attemptLoop_requests_le (fuel : Nat) :
    ∀ (resp : Nat → Attempt) (idx delay : Nat),
      (attemptLoop fuel resp idx delay).requests ≤ fuel := by
  induction fuel with
  | zero => intro resp idx delay; simp [attemptLoop]
  | succ n ih =>
    intro resp idx delay
    simp only [attemptLoop]
    cases resp idx with
    | rateLimited ra =>
      simpa using Nat.succ_le_succ (ih resp (idx + 1) delay)
    | requestError =>
      by_cases h : n = 0
      · simp [h]
      · simpa [h] using Nat.succ_le_succ (ih resp (idx + 1) (delay * 2))
    | success body =>
      cases body <;> simp

/-- Running the pagination loop for `a + b` iterations first runs it for
`a`; if the fuel ran out there, the run resumes from the reached state. -/
theorem runLoop_add (limit : Nat) (att : Nat → Nat → Attempt) (a : Nat) :
    ∀ (b i : Nat) (s s' : LoopState),
      runLoop limit att a i s = .outOfFuel s' →
      runLoop limit att (a + b) i s = runLoop limit att b (i + a) s' := by
  induction a with
  | zero =>
    intro b i s s' h
    simp only [runLoop] at h
    cases h
    simp
  | succ n ih =>
    intro b i s s' h
    rw [show n + 1 + b = (n + b) + 1 by omega]
    rw [runLoop] at h
    rw [runLoop]
    by_cases hg : s.next_cursor = end_cursor ∨ limit ≤ s.count
    · rw [if_pos hg] at h; cases h
    · rw [if_neg hg] at h ⊢
      cases hout : (executeRequest (att i)).outcome with
      | raised =>
        rw [hout] at h
        have h4 : RunResult.excepted s = RunResult.outOfFuel s' := h
        cases h4
      | noData =>
        rw [hout] at h
        have h4 : RunResult.completed s = RunResult.outOfFuel s' := h
        cases h4
      | gotData env =>
        rw [hout] at h
        have h2 : (match processItems limit
            { s with next_cursor := env.next_cursor.getD end_cursor }
            (env.data.getD []) with
          | ForResult.done s2 => runLoop limit att n (i + 1) s2
          | ForResult.raisedAt s2 => RunResult.excepted s2) =
            RunResult.outOfFuel s' := h
        show (match processItems limit
            { s with next_cursor := env.next_cursor.getD end_cursor }
            (env.data.getD []) with
          | ForResult.done s2 => runLoop limit att (n + b) (i + 1) s2
          | ForResult.raisedAt s2 => RunResult.excepted s2) =
            runLoop limit att b (i + (n + 1)) s'
        cases hp : processItems limit
            { s with next_cursor := env.next_cursor.getD end_cursor }
            (env.data.getD []) with
        | done s2 =>
          rw [hp] at h2
          have h4 : runLoop limit att n (i + 1) s2 = RunResult.outOfFuel s' := h2
          show runLoop limit att (n + b) (i + 1) s2 = runLoop limit att b (i + (n + 1)) s'
          rw [show i + (n + 1) = (i + 1) + n by omega]
          exact ih b (i + 1) s2 s' h4
        | raisedAt s2 =>
          rw [hp] at h2
          have h4 : RunResult.excepted s2 = RunResult.outOfFuel s' := h2
          cases h4

/-- `dictInsert` key membership: the keys after an insert are the old keys
together with the inserted key. -/
theorem mem_keys_dictInsert {α : Type} (l : List (String × α)) (k : String)
    (v : α) (x : String) :
    x ∈ (dictInsert l k v).map Prod.fst ↔ x ∈ l.map Prod.fst ∨ x = k := by
  unfold dictInsert
  by_cases h : l.any (fun p => p.1 == k)
  · rw [if_pos h]
    have hk : k ∈ l.map Prod.fst := by
      rcases List.any_eq_true.mp h with ⟨p, hp, hpk⟩
      exact List.mem_map.mpr ⟨p, hp, beq_iff_eq.mp hpk⟩
    have hkeys : (l.map fun p => if p.1 == k then (k, v) else p).map Prod.fst =
        l.map Prod.fst := by
      rw [List.map_map]
      apply List.map_congr_left
      intro p _
      by_cases hpk : p.1 = k
      · simp [hpk]
      · simp [hpk]
    rw [hkeys]
    constructor
    · exact Or.inl
    · rintro (hx | rfl)
      · exact hx
      · exact hk
  · rw [if_neg h]
    simp [List.mem_append]

/-- `List.lookup` on a cons cell, in if-then-else form. -/
theorem lookup_cons_ite {α : Type} (a k : String) (b : α)
    (es : List (String × α)) :
    List.lookup a ((k, b) :: es) = if a = k then some b else List.lookup a es := by
  rw [List.lookup_cons]
  by_cases h : a = k
  · simp [h]
  · rw [if_neg h, beq_eq_false_iff_ne.mpr h]

/-- Looking up a different key is unaffected by a `dictInsert`. -/
theorem lookup_dictInsert_ne {α : Type} (l : List (String × α)) (k k' : String)
    (v : α) (h : k ≠ k') :
    List.lookup k (dictInsert l k' v) = List.lookup k l := by
  unfold dictInsert
  by_cases ha : l.any (fun p => p.1 == k')
  · rw [if_pos ha]
    clear ha
    induction l with
    | nil => simp
    | cons p rest ih =>
      rcases p with ⟨pk, pv⟩
      by_cases hpk : pk = k'
      · simp only [List.map_cons, hpk]
        rw [if_pos (by simp)]
        rw [lookup_cons_ite, lookup_cons_ite, if_neg h, if_neg h]
        exact ih
      · simp only [List.map_cons]
        rw [if_neg (by simpa using hpk)]
        rw [lookup_cons_ite, lookup_cons_ite]
        by_cases hkp : k = pk
        · simp [hkp]
        · rw [if_neg hkp, if_neg hkp]
          exact ih
  · rw [if_neg ha]
    clear ha
    induction l with
    | nil =>
      simp only [List.nil_append]
      rw [lookup_cons_ite, if_neg h]
    | cons p rest ih =>
      rcases p with ⟨pk, pv⟩
      simp only [List.cons_append]
      rw [lookup_cons_ite, lookup_cons_ite]
      by_cases hkp : k = pk
      · simp [hkp]
      · rw [if_neg hkp, if_neg hkp]
        exact ih

/-- When every attempt fails, the price-history loop yields `[]`. -/
theorem priceLoop_fail (fuel : Nat) :
    ∀ (att : Nat → LookupAttempt) (idx : Nat), (∀ j, att j = .fail) →
      priceLoop fuel att idx = [] := by
  induction fuel with
  | zero => intro att idx _; rfl
  | succ n ih =>
    intro att idx h
    simp only [priceLoop, h idx]
    by_cases hn : n = 0
    · simp [hn]
    · simp only [if_neg hn]
      exact ih att (idx + 1) h

/-- When every attempt fails, the trade-history loop yields `[]`. -/
theorem tradeLoop_fail (fuel : Nat) :
    ∀ (att : Nat → LookupAttempt) (idx : Nat), (∀ j, att j = .fail) →
      tradeLoop fuel att idx = [] := by
  induction fuel with
  | zero => intro att idx _; rfl
  | succ n ih =>
    intro att idx h
    simp only [tradeLoop, h idx]
    by_cases hn : n = 0
    · simp [hn]
    · simp only [if_neg hn]
      exact ih att (idx + 1) h

/-- The item loop stops (without classifying) once `count` has reached the
limit. -/
theorem processItems_cons_limit (limit : Nat) (s : LoopState) (item : RawItem)
    (rest : List RawItem) (h : limit ≤ s.count) :
    processItems limit s (item :: rest) = .done s := by
  simp only [processItems]
  rw [if_pos h]

/-- A malformed item raises the exception straight away. -/
theorem processItems_cons_malformed (limit : Nat) (s : LoopState)
    (rest : List RawItem) (h : s.count < limit) :
    processItems limit s (RawItem.malformed :: rest) = .raisedAt s := by
  simp only [processItems]
  rw [if_neg (Nat.not_le.mpr h)]

/-- An item whose slug is falsy is skipped silently: nothing is recorded. -/
theorem processItems_cons_noslug (limit : Nat) (s : LoopState)
    (slug cid q d st : Option String) (tg : Option (List String))
    (rest : List RawItem) (h : s.count < limit) (hs : truthy slug = false) :
    processItems limit s (RawItem.record slug cid q d st tg :: rest) =
      processItems limit s rest := by
  simp only [processItems]
  rw [if_neg (Nat.not_le.mpr h), hs, if_pos rfl]

/-- An item with a truthy slug but a falsy condition id goes to the skipped
dict with reason `"Missing condition_id"`. -/
theorem processItems_cons_nocid (limit : Nat) (s : LoopState)
    (slug cid q d st : Option String) (tg : Option (List String))
    (rest : List RawItem) (h : s.count < limit) (hs : truthy slug = true)
    (hc : truthy cid = false) :
    processItems limit s (RawItem.record slug cid q d st tg :: rest) =
      processItems limit
        { s with skipped_markets := dictInsert s.skipped_markets (slug.getD "") ⟨"Missing condition_id", RawItem.record slug cid q d st tg⟩ }
        rest := by
  simp only [processItems]
  rw [if_neg (Nat.not_le.mpr h), hs, if_neg (by decide), hc, if_pos rfl]

/-- An item with a truthy slug and a truthy condition id is accepted. -/
theorem processItems_cons_accept (limit : Nat) (s : LoopState)
    (slug cid q d st : Option String) (tg : Option (List String))
    (rest : List RawItem) (h : s.count < limit) (hs : truthy slug = true)
    (hc : truthy cid = true) :
    processItems limit s (RawItem.record slug cid q d st tg :: rest) =
      processItems limit
        { s with
          markets_data :=
            dictInsert s.markets_data (slug.getD "") (extractMetadata q d st tg)
          market_slugs := s.market_slugs ++ [slug.getD ""]
          count := s.count + 1 }
        rest := by
  simp only [processItems]
  rw [if_neg (Nat.not_le.mpr h), hs, if_neg (by decide), hc, if_neg (by decide)]

/-- A property of the loop state that only constrains the containers and
the counter, is preserved by each classification branch, and holds of the
input state, holds after the whole item loop — whether it finished or
raised mid-page. -/
theorem processItems_preserves (limit : Nat) (P : LoopState → Prop)
    (hskip : ∀ s slug item, P s →
      P { s with skipped_markets := dictInsert s.skipped_markets slug item })
    (haccept : ∀ (s : LoopState) (slug : Option String) q d st tg,
      truthy slug = true → P s →
      P { s with
          markets_data :=
            dictInsert s.markets_data (slug.getD "") (extractMetadata q d st tg)
          market_slugs := s.market_slugs ++ [slug.getD ""]
          count := s.count + 1 }) :
    ∀ (items : List RawItem) (s : LoopState), P s →
      P (forState (processItems limit s items)) := by
  intro items
  induction items with
  | nil => intro s hP; exact hP
  | cons item rest ih =>
    intro s hP
    by_cases hcount : limit ≤ s.count
    · rw [processItems_cons_limit limit s item rest hcount]; exact hP
    · have hlt : s.count < limit := Nat.lt_of_not_le hcount
      cases item with
      | malformed =>
        rw [processItems_cons_malformed limit s rest hlt]; exact hP
      | record slug cid q d st tg =>
        cases hs : truthy slug with
        | false =>
          rw [processItems_cons_noslug limit s slug cid q d st tg rest hlt hs]
          exact ih s hP
        | true =>
          cases hc : truthy cid with
          | false =>
            rw [processItems_cons_nocid limit s slug cid q d st tg rest hlt hs hc]
            exact ih _ (hskip s _ _ hP)
          | true =>
            rw [processItems_cons_accept limit s slug cid q d st tg rest hlt hs hc]
            exact ih _ (haccept s slug q d st tg hs hP)

/-- A container-and-counter property preserved by the item loop is an
invariant of the pagination loop, whatever the provider does. -/
theorem runLoop_preserves (limit : Nat) (att : Nat → Nat → Attempt)
    (P : LoopState → Prop)
    (hcur : ∀ s c, P s → P { s with next_cursor := c })
    (hproc : ∀ (s : LoopState) (items : List RawItem), P s →
      P (forState (processItems limit s items))) :
    ∀ (fuel i : Nat) (s : LoopState), P s →
      P (stateOf (runLoop limit att fuel i s)) := by
  intro fuel
  induction fuel with
  | zero => intro i s hP; exact hP
  | succ n ih =>
    intro i s hP
    rw [runLoop]
    by_cases hg : s.next_cursor = end_cursor ∨ limit ≤ s.count
    · rw [if_pos hg]; exact hP
    · rw [if_neg hg]
      cases hout : (executeRequest (att i)).outcome with
      | raised => exact hP
      | noData => exact hP
      | gotData env =>
        show P (stateOf (match processItems limit
            { s with next_cursor := env.next_cursor.getD end_cursor }
            (env.data.getD []) with
          | ForResult.done s2 => runLoop limit att n (i + 1) s2
          | ForResult.raisedAt s2 => RunResult.excepted s2))
        have hP1 := hproc { s with next_cursor := env.next_cursor.getD end_cursor }
          (env.data.getD []) (hcur s _ hP)
        cases hp : processItems limit
            { s with next_cursor := env.next_cursor.getD end_cursor }
            (env.data.getD []) with
        | done s2 =>
          rw [hp] at hP1
          exact ih (i + 1) s2 hP1
        | raisedAt s2 =>
          rw [hp] at hP1
          exact hP1

/-- Under the stuck-cursor, skip-only provider `c1Attempts`, the pagination
loop is still running after any number of iterations: the cursor stays
`"AB=="` and `count` stays `0`, so the guard never becomes false. -/
theorem runLoop_stuck_cursor : ∀ (fuel i : Nat) (s : LoopState),
    s.next_cursor ≠ end_cursor → s.count = 0 →
    ∃ s', runLoop 500 c1Attempts fuel i s = .outOfFuel s' := by
  intro fuel
  induction fuel with
  | zero => intro i s _ _; exact ⟨s, rfl⟩
  | succ n ih =>
    intro i s hcur hcount
    rw [runLoop]
    rw [if_neg (fun hor => hor.elim (fun h => hcur h) (fun h => by omega))]
    show ∃ s', (match processItems 500 { s with next_cursor := "AB==" }
        [RawItem.record none (some "c1") none none none none] with
      | ForResult.done s2 => runLoop 500 c1Attempts n (i + 1) s2
      | ForResult.raisedAt s2 => RunResult.excepted s2) = .outOfFuel s'
    rw [processItems_cons_noslug 500 { s with next_cursor := "AB==" }
      none (some "c1") none none none none []
      (by show s.count < 500; omega) rfl]
    exact ih (i + 1) { s with next_cursor := "AB==" }
      (by show ("AB==" : String) ≠ end_cursor; decide) hcount

/-- A page whose every attempt raises a `RequestException` turns the loop
into the excepted state, the accumulated state untouched. -/
theorem runLoop_fail_page (limit m i : Nat) (att : Nat → Nat → Attempt)
    (s : LoopState) (hg : ¬(s.next_cursor = end_cursor ∨ limit ≤ s.count))
    (hfail : ∀ j, att i j = .requestError) :
    runLoop limit att (m + 1) i s = .excepted s := by
  rw [runLoop, if_neg hg]
  have he : att i = fun _ => Attempt.requestError := funext hfail
  rw [he]
  rfl

/-- C1: the claim says the pagination loop of `fetch_market_metadata`
always halts, with at most `limit` items classified, for every sequence of
provider responses — including pages that contain only skipped items and a
cursor that never reaches the terminal value.  The code has no page-count
ceiling and `count` only advances on accepted items, so under `c1Attempts`
(every page: one slug-less item, cursor stuck at `"AB=="`) the loop of the
source never exits: for every fuel bound the model is still running. -/
theorem c1_theorem : ∀ (fuel : Nat) (fs : FileState),
    isDiverged (fetch_market_metadata 500 c1Attempts fuel fs) = true := by
  intro fuel fs
  obtain ⟨s', hs⟩ := runLoop_stuck_cursor fuel 0 initState (by decide) rfl
  unfold fetch_market_metadata
  rw [hs]
  rfl

/-- C2 counterexample: page 1 succeeds but classifies nothing (empty item
list, non-terminal cursor) and page 2 fails permanently.  The claim says
`save_results` is then invoked exactly once; in the code the partial-save
guard at line 159 sees three empty containers, so `save_results` is not
invoked at all (flush count 0) and no file is written. -/
theorem c2_counterexample :
    fetch_market_metadata 500 c2ceAttempts 5 emptyFS = .error emptyFS 0 ∧
    flushCount (fetch_market_metadata 500 c2ceAttempts 5 emptyFS) = 0 := by
  decide

/-- C2 (amended): if the executor fails permanently while fetching the page
after the first `n` pages produced state `s` (with the loop guard still
true), then the run propagates an error, and `save_results` is invoked
exactly once with exactly the records classified from those earlier pages
when any exist — and not at all when the earlier pages classified
nothing. -/
theorem c2_theorem (limit n fuel : Nat) (att : Nat → Nat → Attempt)
    (s : LoopState) (fs : FileState)
    (hrun : runLoop limit att n 0 initState = .outOfFuel s)
    (hg : ¬(s.next_cursor = end_cursor ∨ limit ≤ s.count))
    (hfail : ∀ j, att n j = .requestError)
    (hfuel : n < fuel) :
    fetch_market_metadata limit att fuel fs =
      (if nonEmptyState s then
        FetchResult.error
          (save_results s.markets_data s.market_slugs s.skipped_markets fs) 1
      else FetchResult.error fs 0) := by
  have hsplit := runLoop_add limit att n (fuel - n) 0 initState s hrun
  rw [Nat.add_sub_cancel' (Nat.le_of_lt hfuel)] at hsplit
  obtain ⟨m, hm⟩ : ∃ m, fuel - n = m + 1 := ⟨fuel - n - 1, by omega⟩
  rw [hm, Nat.zero_add] at hsplit
  rw [runLoop_fail_page limit m n att s hg hfail] at hsplit
  unfold fetch_market_metadata
  rw [hsplit]

/-- C2 witness: page 1 accepts the item `"s1"`, page 2 fails permanently;
the run flushes exactly once, persisting exactly page 1's record. -/
theorem c2_witness :
    fetch_market_metadata 500 c2wAttempts 3 emptyFS =
      FetchResult.error (save_results [("s1", okMeta)] ["s1"] [] emptyFS) 1 := by
  have h := c2_theorem 500 1 3 c2wAttempts
    ⟨[("s1", okMeta)], ["s1"], [], 1, "AB=="⟩ emptyFS
    (by decide) (by decide) (fun j => rfl) (by decide)
  rw [h]
  decide

/-- C3 counterexample: the claim says a permanent executor failure on a
page after the first successful page is not propagated to the caller as a
raised error.  With one successful page and then a permanently failing
page, the code's `raise` at line 162 propagates: the run result is an
error (after the single partial flush). -/
theorem c3_counterexample :
    isError (fetch_market_metadata 500 c3ceAttempts 5 emptyFS) = true ∧
    fetch_market_metadata 500 c3ceAttempts 5 emptyFS =
      FetchResult.error ⟨some [("s1", okMeta)], some ["s1"], none⟩ 1 := by
  decide

/-- C3 (amended): a permanent executor failure on any page — later pages
included — stops the run and propagates the error to the caller; the
partial results are flushed exactly once beforehand when any record was
classified, and not at all otherwise. -/
theorem c3_theorem (limit n fuel : Nat) (att : Nat → Nat → Attempt)
    (s : LoopState) (fs : FileState)
    (hrun : runLoop limit att n 0 initState = .outOfFuel s)
    (hg : ¬(s.next_cursor = end_cursor ∨ limit ≤ s.count))
    (hfail : ∀ j, att n j = .requestError)
    (hfuel : n < fuel) :
    isError (fetch_market_metadata limit att fuel fs) = true ∧
    flushCount (fetch_market_metadata limit att fuel fs) =
      (if nonEmptyState s then 1 else 0) := by
  have hsplit := runLoop_add limit att n (fuel - n) 0 initState s hrun
  rw [Nat.add_sub_cancel' (Nat.le_of_lt hfuel)] at hsplit
  obtain ⟨m, hm⟩ : ∃ m, fuel - n = m + 1 := ⟨fuel - n - 1, by omega⟩
  rw [hm, Nat.zero_add] at hsplit
  rw [runLoop_fail_page limit m n att s hg hfail] at hsplit
  unfold fetch_market_metadata
  rw [hsplit]
  by_cases hne : nonEmptyState s
  · simp [hne, isError, flushCount]
  · simp [hne, isError, flushCount]

/-- C3 witness: one successful page then a permanent failure; the error is
propagated to the caller. -/
theorem c3_witness :
    isError (fetch_market_metadata 500 c3wAttempts 3 emptyFS) = true := by
  exact (c3_theorem 500 1 3 c3wAttempts
    ⟨[("s1", okMeta)], ["s1"], [], 1, "AB=="⟩ emptyFS
    (by decide) (by decide) (fun j => rfl) (by decide)).1

/-- C4 counterexample: the claim says an item that has the identifying
field but lacks the display slug is accepted under the synthesized
identifier `"market_" + identifier`.  Feeding the code one page whose only
item has `condition_id "c1"` and no slug yields a run with empty accepted
records, an empty identifier list, an empty quarantine set and no file
written: the item was silently dropped at the `continue` of line 117, and
no identifier `"market_c1"` was synthesized anywhere. -/
theorem c4_counterexample :
    fetch_market_metadata 500 c4Attempts 3 emptyFS =
      FetchResult.ok [] emptyFS 1 := by
  decide

/-- C4 (amended): an item with a truthy slug but a falsy `condition_id` is
recorded as skipped with reason `"Missing condition_id"` under its slug;
an item whose slug is falsy is dropped silently, whatever its
`condition_id` — no identifier is synthesized for it. -/
theorem c4_theorem (slug cid q d st : Option String)
    (tg : Option (List String)) :
    (truthy slug = true → truthy cid = false →
      fetch_market_metadata 500
        (onePageAttempts (RawItem.record slug cid q d st tg)) 3 emptyFS =
        FetchResult.ok []
          ⟨none, none, some [(slug.getD "", "Missing condition_id")]⟩ 1) ∧
    (truthy slug = false →
      fetch_market_metadata 500
        (onePageAttempts (RawItem.record slug cid q d st tg)) 3 emptyFS =
        FetchResult.ok [] emptyFS 1) := by
  constructor
  · intro hs hc
    have hrun : runLoop 500
        (onePageAttempts (RawItem.record slug cid q d st tg)) 3 0 initState =
        RunResult.completed ⟨[], [],
          [(slug.getD "", ⟨"Missing condition_id", RawItem.record slug cid q d st tg⟩)],
          0, "MA"⟩ := by
      rw [show (3 : Nat) = 2 + 1 from rfl, runLoop, if_neg (by decide)]
      show (match processItems 500 ⟨[], [], [], 0, "MA"⟩
          [RawItem.record slug cid q d st tg] with
        | ForResult.done s2 =>
          runLoop 500 (onePageAttempts (RawItem.record slug cid q d st tg)) 2 1 s2
        | ForResult.raisedAt s2 => RunResult.excepted s2) = _
      rw [processItems_cons_nocid 500 ⟨[], [], [], 0, "MA"⟩
        slug cid q d st tg [] (by decide) hs hc]
      rfl
    unfold fetch_market_metadata
    rw [hrun]
    rfl
  · intro hs
    have hrun : runLoop 500
        (onePageAttempts (RawItem.record slug cid q d st tg)) 3 0 initState =
        RunResult.completed ⟨[], [], [], 0, "MA"⟩ := by
      rw [show (3 : Nat) = 2 + 1 from rfl, runLoop, if_neg (by decide)]
      show (match processItems 500 ⟨[], [], [], 0, "MA"⟩
          [RawItem.record slug cid q d st tg] with
        | ForResult.done s2 =>
          runLoop 500 (onePageAttempts (RawItem.record slug cid q d st tg)) 2 1 s2
        | ForResult.raisedAt s2 => RunResult.excepted s2) = _
      rw [processItems_cons_noslug 500 ⟨[], [], [], 0, "MA"⟩
        slug cid q d st tg [] (by decide) hs]
      rfl
    unfold fetch_market_metadata
    rw [hrun]
    rfl

/-- C4 witness: an item with slug `"s1"` and no `condition_id` ends up in
the skipped file under `"s1"` with reason `"Missing condition_id"`. -/
theorem c4_witness :
    fetch_market_metadata 500
      (onePageAttempts (RawItem.record (some "s1") none none none none none))
      3 emptyFS =
      FetchResult.ok [] ⟨none, none, some [("s1", "Missing condition_id")]⟩ 1 := by
  exact (c4_theorem (some "s1") none none none none none).1 rfl rfl

/-- C5 counterexample: the claim says a malformed (non-mapping) item is
quarantined with reason `"invalid_item_shape"` and never aborts the batch.
Feeding the code one page whose only item is malformed makes
`market.get("slug")` raise: the run propagates the exception to the caller
(an error result), nothing is flushed, and no quarantine entry of any
kind — let alone `"invalid_item_shape"` — exists. -/
theorem c5_counterexample :
    fetch_market_metadata 500 c5Attempts 3 emptyFS =
      FetchResult.error emptyFS 0 := by
  decide

/-- C5 (amended): classification of structured (key-value) items is total —
absent fields are absorbed by the field-level defaults and the item loop
always finishes — but a malformed non-mapping item raises an exception
that aborts the whole batch instead of being quarantined. -/
theorem c5_theorem (limit : Nat) :
    (∀ (s : LoopState) (items : List RawItem),
      (∀ it ∈ items, it ≠ RawItem.malformed) →
      ∃ s', processItems limit s items = .done s') ∧
    (∀ (s : LoopState) (rest : List RawItem), s.count < limit →
      processItems limit s (RawItem.malformed :: rest) = .raisedAt s) := by
  constructor
  · intro s items
    induction items generalizing s with
    | nil => intro _; exact ⟨s, rfl⟩
    | cons item rest ih =>
      intro hno
      by_cases hcount : limit ≤ s.count
      · exact ⟨s, processItems_cons_limit limit s item rest hcount⟩
      · have hlt := Nat.lt_of_not_le hcount
        have hrest : ∀ it ∈ rest, it ≠ RawItem.malformed :=
          fun it hit => hno it (List.mem_cons_of_mem _ hit)
        cases item with
        | malformed => exact absurd rfl (hno _ (List.mem_cons_self _ _))
        | record slug cid q d st tg =>
          cases hs : truthy slug with
          | false =>
            rw [processItems_cons_noslug limit s slug cid q d st tg rest hlt hs]
            exact ih s hrest
          | true =>
            cases hc : truthy cid with
            | false =>
              rw [processItems_cons_nocid limit s slug cid q d st tg rest hlt hs hc]
              exact ih _ hrest
            | true =>
              rw [processItems_cons_accept limit s slug cid q d st tg rest hlt hs hc]
              exact ih _ hrest
  · intro s rest h
    exact processItems_cons_malformed limit s rest h

/-- C5 witness: a well-formed item is classified without raising, and a
malformed item raises immediately with the state untouched. -/
theorem c5_witness :
    (∃ s', processItems 500 initState [okItem] = ForResult.done s') ∧
    processItems 500 initState [RawItem.malformed] = ForResult.raisedAt initState := by
  exact ⟨(c5_theorem 500).1 initState [okItem] (by decide),
    (c5_theorem 500).2 initState [] (by decide)⟩

/-- C6 counterexample: the claim says the persisted identifier-list file
never contains duplicates.  A page that repeats the slug `"s1"` produces a
run whose identifier-list file is `["s1", "s1"]` — the accepted-records
dict deduplicates by key but `market_slugs.append` at line 142 does not. -/
theorem c6_counterexample :
    fetch_market_metadata 500 c6Attempts 3 emptyFS =
      FetchResult.ok [("s1", okMeta)]
        ⟨some [("s1", okMeta)], some ["s1", "s1"], none⟩ 1 ∧
    ¬ (["s1", "s1"] : List String).Nodup := by
  decide

/-- C6 (amended): the persisted identifier-list file never contains a
null/empty entry — every appended slug passed the truthiness check of
line 115 — but duplicate entries can survive when the provider repeats a
slug. -/
theorem c6_theorem (limit fuel : Nat) (att : Nat → Nat → Attempt)
    (fs' : FileState) (l : List String)
    (h1 : finalFS (fetch_market_metadata limit att fuel emptyFS) = some fs')
    (h2 : fs'.slugs_file = some l) : "" ∉ l := by
  have hinv : "" ∉ (stateOf (runLoop limit att fuel 0 initState)).market_slugs := by
    refine runLoop_preserves limit att (fun s => "" ∉ s.market_slugs)
      (fun s c hP => hP) ?_ fuel 0 initState (by simp [initState])
    intro s items hP
    refine processItems_preserves limit (fun s => "" ∉ s.market_slugs)
      (fun s slug item hP => hP) ?_ items s hP
    intro s slug q d st tg hslug hP
    simp only [List.mem_append, not_or]
    refine ⟨hP, ?_⟩
    intro hx
    simp only [List.mem_singleton] at hx
    exact truthy_getD_ne hslug hx.symm
  cases hr : runLoop limit att fuel 0 initState with
  | completed s =>
    rw [hr] at hinv
    unfold fetch_market_metadata at h1
    rw [hr] at h1
    have h1' : save_results s.markets_data s.market_slugs s.skipped_markets emptyFS = fs' := by
      simpa [finalFS] using h1
    rw [← h1'] at h2
    simp only [save_results] at h2
    by_cases he : s.market_slugs.isEmpty
    · rw [if_pos he] at h2
      simp [emptyFS] at h2
    · rw [if_neg he] at h2
      injection h2 with h2
      rw [← h2]
      simpa [stateOf] using hinv
  | excepted s =>
    rw [hr] at hinv
    unfold fetch_market_metadata at h1
    rw [hr] at h1
    have h1b : finalFS (if nonEmptyState s = true then
        FetchResult.error
          (save_results s.markets_data s.market_slugs s.skipped_markets emptyFS) 1
      else FetchResult.error emptyFS 0) = some fs' := h1
    clear h1
    by_cases hne : nonEmptyState s
    · rw [if_pos hne] at h1b
      have h1' : save_results s.markets_data s.market_slugs s.skipped_markets emptyFS = fs' := by
        simpa [finalFS] using h1b
      rw [← h1'] at h2
      simp only [save_results] at h2
      by_cases he : s.market_slugs.isEmpty
      · rw [if_pos he] at h2
        simp [emptyFS] at h2
      · rw [if_neg he] at h2
        injection h2 with h2
        rw [← h2]
        simpa [stateOf] using hinv
    · rw [if_neg hne] at h1b
      have h1' : emptyFS = fs' := by simpa [finalFS] using h1b
      rw [← h1'] at h2
      simp [emptyFS] at h2
  | outOfFuel s =>
    unfold fetch_market_metadata at h1
    rw [hr] at h1
    simp [finalFS] at h1

/-- C6 witness: a run that persists the identifier list `["s1"]` contains
no empty entry. -/
theorem c6_witness : "" ∉ (["s1"] : List String) := by
  exact c6_theorem 500 3 c6wAttempts
    ⟨some [("s1", okMeta)], some ["s1"], none⟩ ["s1"] (by decide) rfl

/-- C7 counterexample: the claim says a 429 without a `Retry-After` header
falls back to the exponential backoff schedule `base_delay * 2^i`.  Under
three header-less 429 responses the code sleeps the unchanged
`retry_delay` every time — the observed waits are `[2, 2, 2]`, whereas the
claimed schedule requires the second wait to be `base_delay * 2^1 = 4`. -/
theorem c7_counterexample :
    executeRequest (fun _ => Attempt.rateLimited none) =
      ⟨ReqOutcome.noData, [2, 2, 2], 3⟩ ∧
    [2, 2, 2].get? 1 ≠ some (base_delay * 2 ^ 1) := by
  decide

/-- C7 (amended): every request makes at most 3 attempts; with only
transient failures the waits follow the schedule `base_delay * 2^i`
(`[2, 4]` before the final re-raise); a 429 waits the provider's
`Retry-After` when present and otherwise the current `retry_delay` — which
starts at `base_delay` and is doubled only by transient-failure attempts,
never by 429s, so consecutive header-less 429s wait `base_delay` each
time. -/
theorem c7_theorem (resp : Nat → Attempt) :
    (executeRequest resp).requests ≤ 3 ∧
    (resp = (fun _ => Attempt.requestError) →
      executeRequest resp =
        ⟨ReqOutcome.raised, [base_delay * 2 ^ 0, base_delay * 2 ^ 1], 3⟩) ∧
    (∀ ra, resp 0 = Attempt.rateLimited (some ra) →
      (executeRequest resp).sleeps.head? = some ra) ∧
    (resp 0 = Attempt.rateLimited none →
      (executeRequest resp).sleeps.head? = some base_delay) ∧
    (resp 0 = Attempt.rateLimited none → resp 1 = Attempt.rateLimited none →
      (executeRequest resp).sleeps.take 2 = [base_delay, base_delay]) := by
  refine ⟨attemptLoop_requests_le 3 resp 0 2, ?_, ?_, ?_, ?_⟩
  · intro h
    rw [show executeRequest resp = executeRequest (fun _ => Attempt.requestError) by rw [h]]
    decide
  · intro ra h0
    show (attemptLoop (2 + 1) resp 0 base_delay).sleeps.head? = some ra
    rw [attemptLoop, h0]
    rfl
  · intro h0
    show (attemptLoop (2 + 1) resp 0 base_delay).sleeps.head? = some base_delay
    rw [attemptLoop, h0]
    rfl
  · intro h0 h1
    show (attemptLoop (2 + 1) resp 0 base_delay).sleeps.take 2 = [base_delay, base_delay]
    rw [attemptLoop, h0]
    show (Option.getD none base_delay ::
      (attemptLoop (1 + 1) resp (0 + 1) base_delay).sleeps).take 2 =
      [base_delay, base_delay]
    rw [attemptLoop]
    rw [show resp (0 + 1) = Attempt.rateLimited none from h1]
    rfl

/-- C7 witness: a 429 carrying `Retry-After: 7` makes the first wait 7,
and the request budget is respected. -/
theorem c7_witness :
    (executeRequest (fun _ => Attempt.rateLimited (some 7))).sleeps.head? =
      some 7 := by
  exact (c7_theorem (fun _ => Attempt.rateLimited (some 7))).2.2.1 7 rfl

/-- C8 counterexample: the claim says a run that reaches flush overwrites
all three prior output files even when a container is empty.  A run that
accepts one item and skips nothing rewrites the accepted and identifier
files but leaves the previous run's quarantine file untouched (the
`if skipped_markets` guard at line 200 skips the write). -/
theorem c8_counterexample :
    fetch_market_metadata 500 c8Attempts 3 staleFS =
      FetchResult.ok [("s1", okMeta)]
        ⟨some [("s1", okMeta)], some ["s1"],
          some [("oldskip", "Missing condition_id")]⟩ 1 := by
  decide

/-- C8 (amended): a run that reaches flush overwrites each output file
only when the corresponding container is non-empty; a file whose container
is empty keeps the contents it had before the run. -/
theorem c8_theorem (limit fuel : Nat) (att : Nat → Nat → Attempt)
    (fs0 fs' : FileState)
    (h : finalFS (fetch_market_metadata limit att fuel fs0) = some fs') :
    ((stateOf (runLoop limit att fuel 0 initState)).markets_data = [] →
      fs'.metadata_file = fs0.metadata_file) ∧
    ((stateOf (runLoop limit att fuel 0 initState)).markets_data ≠ [] →
      fs'.metadata_file =
        some (stateOf (runLoop limit att fuel 0 initState)).markets_data) ∧
    ((stateOf (runLoop limit att fuel 0 initState)).market_slugs = [] →
      fs'.slugs_file = fs0.slugs_file) ∧
    ((stateOf (runLoop limit att fuel 0 initState)).market_slugs ≠ [] →
      fs'.slugs_file =
        some (stateOf (runLoop limit att fuel 0 initState)).market_slugs) ∧
    ((stateOf (runLoop limit att fuel 0 initState)).skipped_markets = [] →
      fs'.skipped_file = fs0.skipped_file) ∧
    ((stateOf (runLoop limit att fuel 0 initState)).skipped_markets ≠ [] →
      fs'.skipped_file =
        some ((stateOf (runLoop limit att fuel 0 initState)).skipped_markets.map
          fun p => (p.1, p.2.reason))) := by
  cases hr : runLoop limit att fuel 0 initState with
  | completed s =>
    simp only [stateOf]
    unfold fetch_market_metadata at h
    rw [hr] at h
    have hfs : some (save_results s.markets_data s.market_slugs s.skipped_markets fs0) =
        some fs' := h
    injection hfs with hfs
    rw [← hfs]
    refine ⟨fun h' => by simp [save_results, h'], fun h' => by simp [save_results, h'],
      fun h' => by simp [save_results, h'], fun h' => by simp [save_results, h'],
      fun h' => by simp [save_results, h'], fun h' => by simp [save_results, h']⟩
  | excepted s =>
    simp only [stateOf]
    unfold fetch_market_metadata at h
    rw [hr] at h
    have hb : finalFS (if nonEmptyState s = true then
        FetchResult.error
          (save_results s.markets_data s.market_slugs s.skipped_markets fs0) 1
      else FetchResult.error fs0 0) = some fs' := h
    clear h
    by_cases hne : nonEmptyState s
    · rw [if_pos hne] at hb
      have hfs : some (save_results s.markets_data s.market_slugs s.skipped_markets fs0) =
          some fs' := hb
      injection hfs with hfs
      rw [← hfs]
      refine ⟨fun h' => by simp [save_results, h'], fun h' => by simp [save_results, h'],
        fun h' => by simp [save_results, h'], fun h' => by simp [save_results, h'],
        fun h' => by simp [save_results, h'], fun h' => by simp [save_results, h']⟩
    · rw [if_neg hne] at hb
      have hfs : some fs0 = some fs' := hb
      injection hfs with hfs
      have hne' : nonEmptyState s = false := Bool.not_eq_true _ |>.mp hne
      simp only [nonEmptyState, Bool.not_eq_false', Bool.and_eq_true,
        List.isEmpty_eq_true] at hne'
      obtain ⟨⟨h1, h2⟩, h3⟩ := hne'
      rw [← hfs]
      exact ⟨fun _ => rfl, fun hcon => absurd h1 hcon, fun _ => rfl,
        fun hcon => absurd h2 hcon, fun _ => rfl, fun hcon => absurd h3 hcon⟩
  | outOfFuel s =>
    unfold fetch_market_metadata at h
    rw [hr] at h
    simp [finalFS] at h

/-- C8 witness: a run with an empty quarantine set leaves the previous
run's quarantine file exactly as it was. -/
theorem c8_witness :
    (⟨some [("s1", okMeta)], some ["s1"],
      some [("oldskip", "Missing condition_id")]⟩ : FileState).skipped_file =
      staleFS.skipped_file := by
  exact (c8_theorem 500 3 c8wAttempts staleFS
    ⟨some [("s1", okMeta)], some ["s1"], some [("oldskip", "Missing condition_id")]⟩
    (by decide)).2.2.2.2.1 (by decide)

/-- Under hypotheses making both detail lookups fail on every attempt, the
loop body keeps the market and attaches empty histories. -/
theorem enrichMarket_fail (priceAtt tradeAtt : String → Nat → LookupAttempt)
    (m : MarketDict) (h : String)
    (hh : List.lookup "fpmm_contract_address" m = some (MVal.str h))
    (hne : h ≠ "")
    (hp : ∀ j, priceAtt h j = .fail)
    (ht : ∀ j, tradeAtt h j = .fail) :
    enrichMarket priceAtt tradeAtt m =
      dictInsert (dictInsert m "price_history" (MVal.priceHist []))
        "trade_history" (MVal.tradeHist []) := by
  unfold enrichMarket
  rw [hh]
  rw [if_neg (by simp [truthyVal, hne])]
  have hpe : fetch_price_history (priceAtt (hashString (some (MVal.str h)))) = [] :=
    priceLoop_fail 3 (priceAtt h) 0 hp
  have hte : fetch_trade_history (tradeAtt (hashString (some (MVal.str h)))) = [] :=
    tradeLoop_fail 3 (tradeAtt h) 0 ht
  show dictInsert (dictInsert m "price_history"
      (MVal.priceHist (fetch_price_history (priceAtt (hashString (some (MVal.str h)))))))
      "trade_history"
      (MVal.tradeHist (fetch_trade_history (tradeAtt (hashString (some (MVal.str h)))))) = _
  rw [hpe, hte]

/-- C9: an Accepted record whose per-record detail lookups fail on all
their attempts still appears in the enriched output, at its position, with
every original field unchanged (the failed enrichment only adds empty
`price_history` and `trade_history` lists); the batch is never aborted —
the output always has one record per input market. -/
theorem c9_theorem (markets : List MarketDict)
    (priceAtt tradeAtt : String → Nat → LookupAttempt)
    (i : Nat) (m : MarketDict) (h : String)
    (hm : markets.get? i = some m)
    (hh : List.lookup "fpmm_contract_address" m = some (MVal.str h))
    (hne : h ≠ "")
    (hp : ∀ j, priceAtt h j = .fail)
    (ht : ∀ j, tradeAtt h j = .fail) :
    (fetch_market_data markets priceAtt tradeAtt).length = markets.length ∧
    (fetch_market_data markets priceAtt tradeAtt).get? i =
      some (dictInsert (dictInsert m "price_history" (MVal.priceHist []))
        "trade_history" (MVal.tradeHist [])) ∧
    (∀ k, k ≠ "price_history" → k ≠ "trade_history" →
      List.lookup k (dictInsert (dictInsert m "price_history" (MVal.priceHist []))
        "trade_history" (MVal.tradeHist [])) = List.lookup k m) := by
  refine ⟨by simp [fetch_market_data], ?_, ?_⟩
  · unfold fetch_market_data
    rw [List.get?_map, hm, Option.map_some']
    rw [enrichMarket_fail priceAtt tradeAtt m h hh hne hp ht]
  · intro k hk1 hk2
    rw [lookup_dictInsert_ne _ k "trade_history" _ hk2,
      lookup_dictInsert_ne _ k "price_history" _ hk1]

/-- C9 witness: a concrete market whose lookups always fail keeps its
`question` field and gains empty histories. -/
theorem c9_witness :
    (fetch_market_data [c9Market] failingLookup failingLookup).get? 0 =
      some (dictInsert (dictInsert c9Market "price_history" (MVal.priceHist []))
        "trade_history" (MVal.tradeHist [])) := by
  exact (c9_theorem [c9Market] failingLookup failingLookup 0 c9Market "h1"
    rfl rfl (by decide) (fun j => rfl) (fun j => rfl)).2.1

/-- C10: throughout any run, the key set of the accepted-records dict
equals the entry set of the identifier list and `count` equals the list's
length; consequently, whenever the run persists files (on either flush
site), the accepted-records file and the identifier-list file are either
both absent or both present and cover exactly the same identifiers. -/
theorem c10_theorem (limit fuel : Nat) (att : Nat → Nat → Attempt) :
    ((∀ x, x ∈ (stateOf (runLoop limit att fuel 0 initState)).markets_data.map Prod.fst ↔
        x ∈ (stateOf (runLoop limit att fuel 0 initState)).market_slugs) ∧
      (stateOf (runLoop limit att fuel 0 initState)).count =
        (stateOf (runLoop limit att fuel 0 initState)).market_slugs.length) ∧
    (∀ fs', finalFS (fetch_market_metadata limit att fuel emptyFS) = some fs' →
      ((fs'.metadata_file = none ↔ fs'.slugs_file = none) ∧
        (∀ md sl, fs'.metadata_file = some md → fs'.slugs_file = some sl →
          ∀ x, x ∈ md.map Prod.fst ↔ x ∈ sl))) := by
  have hinv : (∀ x, x ∈ (stateOf (runLoop limit att fuel 0 initState)).markets_data.map Prod.fst ↔
      x ∈ (stateOf (runLoop limit att fuel 0 initState)).market_slugs) ∧
      (stateOf (runLoop limit att fuel 0 initState)).count =
        (stateOf (runLoop limit att fuel 0 initState)).market_slugs.length := by
    refine runLoop_preserves limit att
      (fun s => (∀ x, x ∈ s.markets_data.map Prod.fst ↔ x ∈ s.market_slugs) ∧
        s.count = s.market_slugs.length)
      (fun s c hP => hP) ?_ fuel 0 initState (by simp [initState])
    intro s items hP
    refine processItems_preserves limit
      (fun s => (∀ x, x ∈ s.markets_data.map Prod.fst ↔ x ∈ s.market_slugs) ∧
        s.count = s.market_slugs.length)
      (fun s slug item hP => hP) ?_ items s hP
    intro s slug q d st tg hslug hP
    refine ⟨?_, by simp [hP.2]⟩
    intro x
    rw [mem_keys_dictInsert]
    simp only [List.mem_append, List.mem_singleton]
    constructor
    · rintro (hx | rfl)
      · exact Or.inl ((hP.1 x).mp hx)
      · exact Or.inr rfl
    · rintro (hx | rfl)
      · exact Or.inl ((hP.1 x).mpr hx)
      · exact Or.inr rfl
  refine ⟨hinv, ?_⟩
  intro fs' hfs'
  have hemp : (stateOf (runLoop limit att fuel 0 initState)).markets_data = [] ↔
      (stateOf (runLoop limit att fuel 0 initState)).market_slugs = [] := by
    constructor
    · intro he
      rw [List.eq_nil_iff_forall_not_mem]
      intro x hx
      have := (hinv.1 x).mpr hx
      rw [he] at this
      simp at this
    · intro he
      rw [List.eq_nil_iff_forall_not_mem]
      intro p hp
      have : p.1 ∈ (stateOf (runLoop limit att fuel 0 initState)).markets_data.map Prod.fst :=
        List.mem_map.mpr ⟨p, hp, rfl⟩
      have := (hinv.1 p.1).mp this
      rw [he] at this
      simp at this
  obtain ⟨hkeys, _⟩ := hinv
  cases hr : runLoop limit att fuel 0 initState with
  | completed s =>
    rw [hr] at hkeys hemp
    unfold fetch_market_metadata at hfs'
    rw [hr] at hfs'
    have hfs : some (save_results s.markets_data s.market_slugs s.skipped_markets emptyFS) =
        some fs' := hfs'
    injection hfs with hfs
    rw [← hfs]
    simp only [stateOf] at hkeys hemp
    constructor
    · simp only [save_results]
      by_cases he : s.markets_data = []
      · rw [if_pos (by simp [he]), if_pos (by simp [hemp.mp he])]
        simp [emptyFS]
      · rw [if_neg (by simp [he]), if_neg (by simp [← hemp, he])]
        simp
    · intro md sl hmd hsl x
      simp only [save_results] at hmd hsl
      by_cases he : s.markets_data = []
      · rw [if_pos (by simp [he])] at hmd
        simp [emptyFS] at hmd
      · rw [if_neg (by simp [he])] at hmd
        rw [if_neg (by simp [← hemp, he])] at hsl
        injection hmd with hmd
        injection hsl with hsl
        rw [← hmd, ← hsl]
        exact hkeys x
  | excepted s =>
    rw [hr] at hkeys hemp
    unfold fetch_market_metadata at hfs'
    rw [hr] at hfs'
    have hb : finalFS (if nonEmptyState s = true then
        FetchResult.error
          (save_results s.markets_data s.market_slugs s.skipped_markets emptyFS) 1
      else FetchResult.error emptyFS 0) = some fs' := hfs'
    clear hfs'
    simp only [stateOf] at hkeys hemp
    by_cases hne : nonEmptyState s
    · rw [if_pos hne] at hb
      have hfs : some (save_results s.markets_data s.market_slugs s.skipped_markets emptyFS) =
          some fs' := hb
      injection hfs with hfs
      rw [← hfs]
      constructor
      · simp only [save_results]
        by_cases he : s.markets_data = []
        · rw [if_pos (by simp [he]), if_pos (by simp [hemp.mp he])]
          simp [emptyFS]
        · rw [if_neg (by simp [he]), if_neg (by simp [← hemp, he])]
          simp
      · intro md sl hmd hsl x
        simp only [save_results] at hmd hsl
        by_cases he : s.markets_data = []
        · rw [if_pos (by simp [he])] at hmd
          simp [emptyFS] at hmd
        · rw [if_neg (by simp [he])] at hmd
          rw [if_neg (by simp [← hemp, he])] at hsl
          injection hmd with hmd
          injection hsl with hsl
          rw [← hmd, ← hsl]
          exact hkeys x
    · rw [if_neg hne] at hb
      have hfs : some emptyFS = some fs' := hb
      injection hfs with hfs
      rw [← hfs]
      exact ⟨by simp [emptyFS], fun md sl hmd _ _ => by simp [emptyFS] at hmd⟩
  | outOfFuel s =>
    unfold fetch_market_metadata at hfs'
    rw [hr] at hfs'
    simp [finalFS] at hfs'

/-- C10 witness: on a concrete run the accepted-records keys and the
identifier list agree at `"s1"`. -/
theorem c10_witness :
    "s1" ∈ (stateOf (runLoop 500 c10Attempts 3 0 initState)).markets_data.map Prod.fst ↔
      "s1" ∈ (stateOf (runLoop 500 c10Attempts 3 0 initState)).market_slugs := by
  exact (c10_theorem 500 3 c10Attempts).1.1 "s1"

end PyClob
